import Mathlib

/-!
Verification development for the snowflake-mcp protocol bridge.

The JavaScript sources are shallowly embedded below:
- the per-call query gateway `runQuery` (src/unnamed/part_001 lines 23-40,
  identical in part_002 lines 20-44 and part_003 lines 21-38);
- the statement safety filter `forbidden` (part_001 line 51) and the
  `run_query` tool handler built on it (part_001 lines 59-73);
- the JSON-RPC bridge for POST /mcp from src/index.js lines 83-162
  (same shape in part_000 lines 86-155);
- JSON serialization of row sequences (`JSON.stringify(rows)`, part_001
  line 69) together with a JSON deserializer for row-shaped documents.

Driver interactions (connect / execute callbacks of the snowflake SDK) are
modelled by a `Driver` record giving the outcome of each callback; resource
usage (connection destruction, gateway invocations, registry lookups) is
made explicit as counters so that lifecycle claims become provable.
-/

/-- Scalar JSON values appearing in warehouse result rows. -/
inductive JValue where
  | null
  | bool (b : Bool)
  | int (n : Int)
  | str (s : String)
deriving DecidableEq, Repr

/-- A result row: an ordered mapping from column name to value, as produced
by the warehouse driver (a JS object, field order preserved). -/
abbrev Row := List (String × JValue)

/-- Outcome of `connection.connect(cb)` for one invocation. -/
inductive ConnectOutcome where
  | ok
  | fail (msg : String)
deriving DecidableEq, Repr

/-- Outcome of `connection.execute({..., complete})` for one invocation.
`ok none` models the driver invoking the callback with `rows` null or
undefined; `ok (some rs)` models a row collection. -/
inductive ExecOutcome where
  | fail (msg : String)
  | ok (rows : Option (List Row))
deriving DecidableEq, Repr

/-- The warehouse driver behaviour observed by one `runQuery` invocation. -/
structure Driver where
  connect : ConnectOutcome
  exec : ExecOutcome
deriving DecidableEq, Repr

/-- Query Execution Gateway, from src/unnamed/part_001 lines 23-40:

```
async function runQuery(sql) {
  const connection = createConnection();
  return new Promise((resolve, reject) => {
    connection.connect(err => {
      if (err) return reject(err);
      connection.execute({
        sqlText: sql,
        complete: (err, stmt, rows) => {
          connection.destroy(() => \x7b\x7d);
          if (err) reject(err);
          else resolve(rows || []);
        }
      });
    });
  });
}
```

The first component is the promise outcome; the second counts how many
times `connection.destroy` ran during the invocation. On connect failure
the code rejects before any `destroy`; the single `destroy` happens inside
the `complete` callback of `execute` only. -/
def runQuery (d : Driver) : Except String (List Row) × Nat :=
  match d.connect with
  | .fail e => (Except.error e, 0)
  | .ok =>
    match d.exec with
    | .fail e => (Except.error e, 1)
    | .ok rows => (Except.ok (rows.getD []), 1)

/-- Connection-allocator state: `next` is the identity the next
`snowflake.createConnection()` call returns. Handles are identified by
allocation order so that freshness and sharing are expressible. -/
structure ConnAlloc where
  next : Nat
deriving DecidableEq, Repr

/-- `snowflake.createConnection(...)`: returns a fresh handle. -/
def createConnection (s : ConnAlloc) : Nat × ConnAlloc :=
  (s.next, ⟨s.next + 1⟩)

/-- The connection used by one `runQuery` invocation
(src/unnamed/part_001 line 24: `const connection = createConnection();`):
a fresh handle allocated inside the gateway scope. -/
def runQueryConnOf (s : ConnAlloc) : Nat × ConnAlloc :=
  createConnection s

/-- src/index.js line 33: `const connection = createConnection();` —
one module-global connection allocated at process start. -/
def indexGlobalConnection : Nat :=
  (createConnection ⟨0⟩).1

/-- The connection used by one invocation of the src/index.js `run_query`
handler (lines 53-70): it closes over the module-global handle and
allocates nothing. -/
def indexHandlerConnOf (s : ConnAlloc) : Nat × ConnAlloc :=
  (indexGlobalConnection, s)

/-- JS word character, `\w` = `[A-Za-z0-9_]`. -/
def isWordChar (c : Char) : Bool :=
  ('A' ≤ c && c ≤ 'Z') || ('a' ≤ c && c ≤ 'z') || ('0' ≤ c && c ≤ '9') || c == '_'

/-- The denylisted verbs of src/unnamed/part_001 line 51. -/
def denylist : List (List Char) :=
  [['U','P','D','A','T','E'],
   ['D','E','L','E','T','E'],
   ['I','N','S','E','R','T'],
   ['M','E','R','G','E'],
   ['D','R','O','P'],
   ['A','L','T','E','R'],
   ['T','R','U','N','C','A','T','E']]

/-- `matchWord v cs` holds when `cs` starts with verb `v`
case-insensitively and the character following the verb (if any) is not a
word character, i.e. the trailing `\b` of the regex is satisfied. -/
def matchWord : List Char → List Char → Bool
  | [], [] => true
  | [], c :: _ => !isWordChar c
  | _ :: _, [] => false
  | p :: ps, c :: cs => c.toUpper == p && matchWord ps cs

/-- The leading `\b`: satisfied at the start of input or after a non-word
character. -/
def boundaryB : Option Char → Bool
  | none => true
  | some p => !isWordChar p

/-- Scan of the subject string; `prev` is the character immediately before
the current position (`none` at the start). -/
def forbiddenAux (prev : Option Char) : List Char → Bool
  | [] => false
  | c :: cs =>
    (boundaryB prev && denylist.any (fun v => matchWord v (c :: cs)))
      || forbiddenAux (some c) cs

/-- Statement Safety Filter, src/unnamed/part_001 line 51:
`const forbidden = /\b(UPDATE|DELETE|INSERT|MERGE|DROP|ALTER|TRUNCATE)\b/i;`
`forbidden s = true` iff `forbidden.test(s)` is true in JS. -/
def forbidden (s : String) : Bool :=
  forbiddenAux none s.toList

/-- Spec-level statement of "contains a denylisted verb as a whole word,
in any letter case": the string splits as `pre ++ w ++ post` where `w`
spells a denylisted verb up to case, the character before `w` (if any) is
not a word character, and the character after `w` (if any) is not a word
character. -/
def hasForbiddenWord (cs : List Char) : Prop :=
  ∃ pre w post, cs = pre ++ w ++ post ∧ w.map Char.toUpper ∈ denylist ∧
    (∀ p, pre.getLast? = some p → isWordChar p = false) ∧
    (∀ c, post.head? = some c → isWordChar c = false)

/-- Decimal digit of value `d` (`d < 10`). -/
def digitToChar : Nat → Char
  | 0 => '0' | 1 => '1' | 2 => '2' | 3 => '3' | 4 => '4'
  | 5 => '5' | 6 => '6' | 7 => '7' | 8 => '8' | _ => '9'

/-- Numeric value of a decimal digit character. -/
def digitVal (c : Char) : Nat := c.toNat - 48

/-- Decimal digit test (`[0-9]`). -/
def isDigitC (c : Char) : Bool := '0' ≤ c && c ≤ '9'

/-- Most-significant-first decimal digits of `n` (`[]` for `0`); the fuel
argument bounds the recursion depth and any `fuel ≥ n` is enough. -/
def natCharsAux : Nat → Nat → List Char
  | 0, _ => []
  | fuel + 1, n =>
    if n = 0 then [] else natCharsAux fuel (n / 10) ++ [digitToChar (n % 10)]

/-- Decimal notation of `n`, as printed by `JSON.stringify`. -/
def natChars (n : Nat) : List Char :=
  if n = 0 then ['0'] else natCharsAux n n

/-- Lowercase hexadecimal digit of value `d` (`d < 16`). -/
def hexDigitChar : Nat → Char
  | 0 => '0' | 1 => '1' | 2 => '2' | 3 => '3' | 4 => '4'
  | 5 => '5' | 6 => '6' | 7 => '7' | 8 => '8' | 9 => '9'
  | 10 => 'a' | 11 => 'b' | 12 => 'c' | 13 => 'd' | 14 => 'e' | _ => 'f'

/-- Value of a hexadecimal digit character, if it is one. -/
def hexVal (c : Char) : Option Nat :=
  if '0' ≤ c && c ≤ '9' then some (c.toNat - 48)
  else if 'a' ≤ c && c ≤ 'f' then some (c.toNat - 87)
  else if 'A' ≤ c && c ≤ 'F' then some (c.toNat - 55)
  else none

/-- `JSON.stringify` escaping of one string character: quote and backslash
get a backslash escape, the named control escapes are used for 8, 9, 10,
12, 13, remaining control characters become `\u00xx`, everything else is
emitted literally. -/
def escapeChar (c : Char) : List Char :=
  if c = '"' then ['\\', '"']
  else if c = '\\' then ['\\', '\\']
  else if c.toNat = 8 then ['\\', 'b']
  else if c.toNat = 9 then ['\\', 't']
  else if c.toNat = 10 then ['\\', 'n']
  else if c.toNat = 12 then ['\\', 'f']
  else if c.toNat = 13 then ['\\', 'r']
  else if c.toNat < 32 then
    ['\\', 'u', '0', '0', hexDigitChar (c.toNat / 16), hexDigitChar (c.toNat % 16)]
  else [c]

/-- Escaped body of a JSON string literal. -/
def escapeChars : List Char → List Char
  | [] => []
  | c :: cs => escapeChar c ++ escapeChars cs

/-- Serialization of one scalar value. -/
def jvalueChars : JValue → List Char
  | .null => "null".toList
  | .bool true => "true".toList
  | .bool false => "false".toList
  | .int m => if m < 0 then '-' :: natChars m.natAbs else natChars m.natAbs
  | .str s => '"' :: (escapeChars s.toList ++ ['"'])

/-- Serialization of one `"key":value` member. -/
def fieldChars (f : String × JValue) : List Char :=
  '"' :: (escapeChars f.1.toList ++ '"' :: ':' :: jvalueChars f.2)

/-- Comma-separated members of a row object. -/
def fieldsChars : Row → List Char
  | [] => []
  | [f] => fieldChars f
  | f :: g :: fs => fieldChars f ++ ',' :: fieldsChars (g :: fs)

/-- Serialization of one row as a JSON object. -/
def rowChars (r : Row) : List Char :=
  '{' :: (fieldsChars r ++ ['}'])

/-- Comma-separated rows of the result array. -/
def rowsChars : List Row → List Char
  | [] => []
  | [r] => rowChars r
  | r :: t :: ts => rowChars r ++ ',' :: rowsChars (t :: ts)

/-- `JSON.stringify(rows)` for a row sequence (src/unnamed/part_001
line 69). -/
def stringifyRows (rs : List Row) : String :=
  ⟨'[' :: (rowsChars rs ++ [']'])⟩

/-- JSON string-literal body parser: consumes characters up to the closing
quote, decoding the escape sequences of RFC 8259 (surrogate escapes are
not modelled; the serializer above never emits them). Returns the decoded
characters and the remaining input. -/
def parseStringBody : List Char → Option (List Char × List Char)
  | [] => none
  | c :: rest =>
    if c = '"' then some ([], rest)
    else if c = '\\' then
      match rest with
      | [] => none
      | e :: rest1 =>
        if e = '"' then (parseStringBody rest1).map (fun p => ('"' :: p.1, p.2))
        else if e = '\\' then (parseStringBody rest1).map (fun p => ('\\' :: p.1, p.2))
        else if e = '/' then (parseStringBody rest1).map (fun p => ('/' :: p.1, p.2))
        else if e = 'b' then (parseStringBody rest1).map (fun p => (Char.ofNat 8 :: p.1, p.2))
        else if e = 'f' then (parseStringBody rest1).map (fun p => (Char.ofNat 12 :: p.1, p.2))
        else if e = 'n' then (parseStringBody rest1).map (fun p => (Char.ofNat 10 :: p.1, p.2))
        else if e = 'r' then (parseStringBody rest1).map (fun p => (Char.ofNat 13 :: p.1, p.2))
        else if e = 't' then (parseStringBody rest1).map (fun p => (Char.ofNat 9 :: p.1, p.2))
        else if e = 'u' then
          match rest1 with
          | h1 :: h2 :: h3 :: h4 :: rest2 =>
            match hexVal h1, hexVal h2, hexVal h3, hexVal h4 with
            | some a, some b, some x, some y =>
              let n := ((a * 16 + b) * 16 + x) * 16 + y
              if n < 55296 then (parseStringBody rest2).map (fun p => (Char.ofNat n :: p.1, p.2))
              else none
            | _, _, _, _ => none
          | _ => none
        else none
    else if c.toNat < 32 then none
    else (parseStringBody rest).map (fun p => (c :: p.1, p.2))

/-- Maximal run of decimal digits, as a number, with the remaining input;
fails when the input does not start with a digit. -/
def parseNat (cs : List Char) : Option (Nat × List Char) :=
  if cs.takeWhile isDigitC = [] then none
  else some ((cs.takeWhile isDigitC).foldl (fun a c => a * 10 + digitVal c) 0,
    cs.dropWhile isDigitC)

/-- Scalar JSON value parser. -/
def parseJValue (cs : List Char) : Option (JValue × List Char) :=
  if cs.take 4 = ['n', 'u', 'l', 'l'] then some (.null, cs.drop 4)
  else if cs.take 4 = ['t', 'r', 'u', 'e'] then some (.bool true, cs.drop 4)
  else if cs.take 5 = ['f', 'a', 'l', 's', 'e'] then some (.bool false, cs.drop 5)
  else if cs.head? = some '"' then
    (parseStringBody cs.tail).map (fun p => (JValue.str ⟨p.1⟩, p.2))
  else if cs.head? = some '-' then
    (parseNat cs.tail).map (fun p => (JValue.int (-(p.1 : Int)), p.2))
  else
    (parseNat cs).map (fun p => (JValue.int (p.1 : Int), p.2))

/-- One `"key":value` member. -/
def parseField (cs : List Char) : Option ((String × JValue) × List Char) :=
  match cs with
  | '"' :: rest =>
    match parseStringBody rest with
    | none => none
    | some (k, rest1) =>
      match rest1 with
      | ':' :: rest2 =>
        match parseJValue rest2 with
        | none => none
        | some (v, rest3) => some ((⟨k⟩, v), rest3)
      | _ => none
  | _ => none

/-- Members of a non-empty object body, up to and including the closing
brace; the fuel bounds the number of members. -/
def parseFieldsAux : Nat → List Char → Option (Row × List Char)
  | 0, _ => none
  | fuel + 1, cs =>
    match parseField cs with
    | none => none
    | some (f, rest) =>
      match rest with
      | '}' :: rest1 => some ([f], rest1)
      | ',' :: rest1 =>
        match parseFieldsAux fuel rest1 with
        | none => none
        | some (fs, rest2) => some (f :: fs, rest2)
      | _ => none

/-- One row object. -/
def parseRow (cs : List Char) : Option (Row × List Char) :=
  if cs.take 2 = ['{', '}'] then some ([], cs.drop 2)
  else if cs.head? = some '{' then parseFieldsAux cs.tail.length cs.tail
  else none

/-- Rows of a non-empty array body, up to and including the closing
bracket; the fuel bounds the number of rows. -/
def parseRowsAux : Nat → List Char → Option (List Row × List Char)
  | 0, _ => none
  | fuel + 1, cs =>
    match parseRow cs with
    | none => none
    | some (r, rest) =>
      match rest with
      | ']' :: rest1 => some ([r], rest1)
      | ',' :: rest1 =>
        match parseRowsAux fuel rest1 with
        | none => none
        | some (rs, rest2) => some (r :: rs, rest2)
      | _ => none

/-- JSON deserialization of a complete row-sequence document: the whole
input must be one array of row objects. -/
def parseRows (s : String) : Option (List Row) :=
  if s.toList.take 2 = ['[', ']'] then
    if s.toList.length = 2 then some [] else none
  else if s.toList.head? = some '[' then
    match parseRowsAux s.toList.tail.length s.toList.tail with
    | some (rs, []) => some rs
    | _ => none
  else none

/-- One typed content block of a ToolResult. -/
structure ContentBlock where
  type : String
  text : String
deriving DecidableEq, Repr

/-- Result of a successful tool invocation. -/
structure ToolResult where
  content : List ContentBlock
deriving DecidableEq, Repr

/-- The `run_query` tool handler, src/unnamed/part_001 lines 59-73 (the
same handler appears in part_002 lines 61-76 and part_003 lines 55-70,
with differing message text):

```
async ({ sql }) => {
  if (forbidden.test(sql)) {
    throw new Error("Only SELECT queries are allowed.");
  }
  const rows = await runQuery(sql);
  return { content: [ { type: "text", text: JSON.stringify(rows) } ] };
}
```

The first component is the handler outcome (`error` models a throw or a
rejected promise, carrying the error message); the second counts the
invocations of the Query Execution Gateway `runQuery`. -/
def run_query (d : Driver) (sql : String) : Except String ToolResult × Nat :=
  if forbidden sql then
    (Except.error "Only SELECT queries are allowed.", 0)
  else
    match (runQuery d).1 with
    | .error e => (Except.error e, 1)
    | .ok rows =>
      (Except.ok { content := [{ type := "text", text := stringifyRows rows }] }, 1)

/-- JSON-RPC request id: a number, a string, `null`, or absent
(`undefined`). -/
inductive RpcId where
  | num (n : Int)
  | str (s : String)
  | null
  | absent
deriving DecidableEq, Repr

/-- The fields of the decoded POST /mcp body that src/index.js reads:
`body.method`, `body.id`, `body.params.name`, `body.params.arguments.sql`.
`none` models an absent field. -/
structure RpcBody where
  method : Option String
  id : RpcId
  toolName : Option String
  sqlArg : Option String
deriving DecidableEq, Repr

/-- JS truthiness of the `method` field (absent or empty string is
falsy). -/
def methodTruthy : Option String → Bool
  | none => false
  | some s => !(s == "")

/-- JSON-RPC error member. -/
structure ErrObj where
  code : Int
  message : String
deriving DecidableEq, Repr

/-- Outbound JSON-RPC response envelope as written by src/index.js: the
serialized object carries `jsonrpc`, `id`, and a `result` key or an
`error` key, modelled as two optional members. -/
structure Envelope where
  jsonrpc : String
  id : RpcId
  result : Option ToolResult
  error : Option ErrObj
deriving DecidableEq, Repr

/-- Success envelope (src/index.js lines 116-123). -/
def okEnvelope (id : RpcId) (r : ToolResult) : Envelope :=
  { jsonrpc := "2.0", id := id, result := some r, error := none }

/-- Error envelope (src/index.js lines 133-140 and 152-158). -/
def errEnvelope (id : RpcId) (code : Int) (message : String) : Envelope :=
  { jsonrpc := "2.0", id := id, result := none, error := some ⟨code, message⟩ }

/-- One event-stream frame: `event: <event>` followed by one `data:` line
carrying the envelope. -/
structure Frame where
  event : String
  data : Envelope
deriving DecidableEq, Repr

/-- HTTP response produced by the POST /mcp handler: either the 400 JSON
reply for invalid bodies, or a `text/event-stream` reply with its emitted
frames and whether `res.end()` ran. -/
inductive Response where
  | badRequest (payload : String)
  | sse (frames : List Frame) (ended : Bool)
deriving DecidableEq, Repr

/-- Result of one POST /mcp handling: the HTTP response, the number of
tool-registry lookups performed, and the number of Query Execution
Gateway invocations. -/
structure BridgeOut where
  response : Response
  lookups : Nat
  gatewayCalls : Nat
deriving DecidableEq, Repr

/-- `err.message || "Tool failed"` of src/index.js line 138. -/
def msgOr (m : String) : String :=
  if m = "" then "Tool failed" else m

/-- Message of the error thrown at src/index.js line 104 for an unknown
tool name (`Tool '<name>' not found`; an absent `params.name` prints as
`undefined`). -/
def toolNotFoundMsg (name : Option String) : String :=
  "Tool '" ++ name.getD "undefined" ++ "' not found"

/-- Tool Registry with its single entry: src/index.js line 101 looks the
name up in `server._registeredTools`; only `run_query` is registered. -/
def registryGet (name : Option String) : Option Unit :=
  if name = some "run_query" then some () else none

/-- Protocol Bridge for POST /mcp, src/index.js lines 83-162:

1. a missing body or falsy `method` gets the 400 `Invalid request` reply;
2. `method === "callTool"` resolves the tool (one registry lookup),
   invokes its handler, and writes one `event: message` frame holding a
   success envelope, or — when the lookup or the handler throws — an
   error envelope with code -32000 and `err.message || "Tool failed"`;
3. any other method writes one frame with code -32601, `Method not found`,
   and performs no registry lookup.

The registered handler is the safety-filtered `run_query` of
src/unnamed/part_001 (an absent `sql` argument reaches the regex test as
the string `undefined`, following JS string coercion). -/
def mcpPost (d : Driver) (req : Option RpcBody) : BridgeOut :=
  match req with
  | none => ⟨.badRequest "Invalid request", 0, 0⟩
  | some body =>
    if methodTruthy body.method = false then
      ⟨.badRequest "Invalid request", 0, 0⟩
    else if body.method = some "callTool" then
      match registryGet body.toolName with
      | none =>
        ⟨.sse [⟨"message", errEnvelope body.id (-32000) (msgOr (toolNotFoundMsg body.toolName))⟩] true, 1, 0⟩
      | some _ =>
        match run_query d (body.sqlArg.getD "undefined") with
        | (.ok r, g) => ⟨.sse [⟨"message", okEnvelope body.id r⟩] true, 1, g⟩
        | (.error m, g) => ⟨.sse [⟨"message", errEnvelope body.id (-32000) (msgOr m)⟩] true, 1, g⟩
    else
      ⟨.sse [⟨"message", errEnvelope body.id (-32601) "Method not found"⟩] true, 0, 0⟩

/-- Frames emitted by a response (none for the 400 reply). -/
def responseFrames : Response → List Frame
  | .badRequest _ => []
  | .sse fr _ => fr

/-- The id written by the transport-error fallback of
src/unnamed/part_001 lines 99-108: `id: req.body?.id ?? null` (an absent
body or an absent/undefined id becomes `null`). -/
def catchFallbackId : Option RpcBody → RpcId
  | none => .null
  | some b => match b.id with
    | .absent => .null
    | i => i

/-- `matchWord` decomposed: the input starts with a case variant of the
verb and the character after it (if any) is not a word character. -/
theorem matchWord_iff (v : List Char) : ∀ post : List Char,
    matchWord v post = true ↔
      ∃ w rest, post = w ++ rest ∧ w.map Char.toUpper = v ∧
        (∀ c, rest.head? = some c → isWordChar c = false) := by
  induction v with
  | nil =>
    intro post
    constructor
    · intro h
      refine ⟨[], post, rfl, rfl, ?_⟩
      intro c hc
      cases post with
      | nil => simp at hc
      | cons d ds =>
        simp at hc
        subst hc
        simpa [matchWord] using h
    · rintro ⟨w, rest, happ, hmap, hhead⟩
      have hw : w = [] := by simpa using hmap
      subst hw
      simp at happ
      subst happ
      cases post with
      | nil => simp [matchWord]
      | cons d ds =>
        have := hhead d (by simp)
        simp [matchWord, this]
  | cons p ps ih =>
    intro post
    constructor
    · intro h
      cases post with
      | nil => simp [matchWord] at h
      | cons c cs =>
        simp only [matchWord, Bool.and_eq_true, beq_iff_eq] at h
        obtain ⟨h1, h2⟩ := h
        obtain ⟨w, rest, happ, hmap, hhead⟩ := (ih cs).mp h2
        exact ⟨c :: w, rest, by simp [happ], by simp [hmap, h1], hhead⟩
    · rintro ⟨w, rest, happ, hmap, hhead⟩
      cases w with
      | nil => simp at hmap
      | cons c w' =>
        simp only [List.map_cons, List.cons.injEq] at hmap
        obtain ⟨h1, h2⟩ := hmap
        cases post with
        | nil => simp at happ
        | cons c0 cs =>
          simp only [List.cons_append, List.cons.injEq] at happ
          obtain ⟨rfl, rfl⟩ := happ
          simp only [matchWord, Bool.and_eq_true, beq_iff_eq]
          exact ⟨h1, (ih _).mpr ⟨w', rest, rfl, h2, hhead⟩⟩

/-- The character standing right before the current scan position, given
the character before the consumed prefix `pre` and `pre` itself. -/
def lastCtx (prev : Option Char) : List Char → Option Char
  | [] => prev
  | c :: cs => lastCtx (some c) cs

theorem lastCtx_concat (prev : Option Char) (x : Char) (xs : List Char) :
    lastCtx prev (xs ++ [x]) = some x := by
  induction xs generalizing prev with
  | nil => rfl
  | cons c cs ih => simpa [lastCtx] using ih (some c)

/-- No denylisted verb is empty. -/
theorem denylist_ne_nil : ∀ v ∈ denylist, v ≠ [] := by decide

/-- The scan succeeds exactly when some split point carries a
word-boundary-correct verb occurrence. -/
theorem forbiddenAux_iff : ∀ (cs : List Char) (prev : Option Char),
    forbiddenAux prev cs = true ↔
      ∃ pre post v, v ∈ denylist ∧ cs = pre ++ post ∧ matchWord v post = true ∧
        boundaryB (lastCtx prev pre) = true := by
  intro cs
  induction cs with
  | nil =>
    intro prev
    simp only [forbiddenAux, Bool.false_eq_true, false_iff]
    rintro ⟨pre, post, v, hv, heq, hm, _⟩
    have hpre : pre = [] := by
      cases pre with
      | nil => rfl
      | cons a as => simp at heq
    subst hpre
    simp at heq
    subst heq
    cases hv' : v with
    | nil => exact denylist_ne_nil v hv hv'
    | cons p ps => rw [hv'] at hm; simp [matchWord] at hm
  | cons c cs' ih =>
    intro prev
    simp only [forbiddenAux, Bool.or_eq_true, Bool.and_eq_true, List.any_eq_true]
    constructor
    · rintro (⟨hb, v, hv, hm⟩ | h)
      · exact ⟨[], c :: cs', v, hv, rfl, hm, by simpa [lastCtx] using hb⟩
      · obtain ⟨pre', post', v, hv, heq, hm, hb⟩ := (ih (some c)).mp h
        exact ⟨c :: pre', post', v, hv, by simp [heq], hm, by simpa [lastCtx] using hb⟩
    · rintro ⟨pre, post, v, hv, heq, hm, hb⟩
      cases pre with
      | nil =>
        simp at heq
        subst heq
        exact Or.inl ⟨by simpa [lastCtx] using hb, v, hv, hm⟩
      | cons p0 ps0 =>
        simp only [List.cons_append, List.cons.injEq] at heq
        obtain ⟨rfl, rfl⟩ := heq
        simp only [lastCtx] at hb
        exact Or.inr ((ih (some c)).mpr ⟨ps0, post, v, hv, rfl, hm, hb⟩)

/-- Refinement of the Statement Safety Filter: the compiled regex test of
src/unnamed/part_001 line 51 accepts exactly the strings containing a
denylisted verb as a whole word, in any letter case. -/
theorem forbidden_iff (s : String) :
    forbidden s = true ↔ hasForbiddenWord s.toList := by
  rw [forbidden, forbiddenAux_iff, hasForbiddenWord]
  constructor
  · rintro ⟨pre, post, v, hv, heq, hm, hb⟩
    obtain ⟨w, rest, rfl, hmap, hhead⟩ := (matchWord_iff v post).mp hm
    refine ⟨pre, w, rest, ?_, by rw [hmap]; exact hv, ?_, hhead⟩
    · show s.toList = pre ++ w ++ rest
      rw [heq, List.append_assoc]
    · intro p hp
      rcases List.eq_nil_or_concat pre with rfl | ⟨ys, y, rfl⟩
      · simp at hp
      · simp only [List.concat_eq_append] at hp hb
        rw [List.getLast?_concat] at hp
        rw [lastCtx_concat] at hb
        cases hp
        simpa [boundaryB] using hb
  · rintro ⟨pre, w, rest, heq, hv, hpre, hhead⟩
    refine ⟨pre, w ++ rest, w.map Char.toUpper, hv, ?_, ?_, ?_⟩
    · show s.toList = pre ++ (w ++ rest)
      rw [heq, List.append_assoc]
    · exact (matchWord_iff _ _).mpr ⟨w, rest, rfl, rfl, hhead⟩
    · rcases List.eq_nil_or_concat pre with rfl | ⟨ys, y, rfl⟩
      · rfl
      · simp only [List.concat_eq_append] at hpre ⊢
        rw [lastCtx_concat]
        simpa [boundaryB] using hpre y (List.getLast?_concat ys)

/-- Claim C1: on a connect failure the Query Execution Gateway rejects
without ever running `connection.destroy` — the connection created for the
invocation is released zero times, not once, on that exit path (the single
`destroy` of src/unnamed/part_001 line 33 sits inside the `complete`
callback of `execute`, which a failed `connect` never reaches). -/
theorem runQuery_connect_fail_skips_destroy :
    runQuery ⟨ConnectOutcome.fail "ECONNREFUSED", ExecOutcome.ok none⟩ =
      (Except.error "ECONNREFUSED", 0) := rfl

/-- On the paths where `connect` succeeds (successful execution and
execute failure) the connection is destroyed exactly once; on connect
failure it is never destroyed. -/
theorem runQuery_destroy_count (d : Driver) :
    (runQuery d).2 = match d.connect with
      | .ok => 1
      | .fail _ => 0 := by
  rcases d with ⟨c, e⟩
  cases c <;> cases e <;> rfl

/-- Claim C2 (counterexample): in src/index.js two distinct requests are
served by the same module-global connection handle — the second
invocation, run from whatever allocator state the first left behind,
uses the very same handle, so the handle is shared across requests. -/
theorem index_handler_shares_connection :
    (indexHandlerConnOf ⟨5⟩).1 =
      (indexHandlerConnOf (indexHandlerConnOf ⟨5⟩).2).1 := rfl

/-- Claim C2 (amended): in the Query Execution Gateway `runQuery` of
src/unnamed/part_001, each invocation creates its own fresh
WarehouseConnection inside the gateway scope — two successive invocations
never share a handle, from any allocator state. -/
theorem runQuery_fresh_connection (s : ConnAlloc) :
    (runQueryConnOf s).1 ≠ (runQueryConnOf (runQueryConnOf s).2).1 := by
  simp [runQueryConnOf, createConnection]

/-- Claim C10: when the driver completes successfully but hands the
`complete` callback a null or undefined row collection, `runQuery`
resolves with the empty row sequence (after its single destroy), so the
success path always yields an array. -/
theorem runQuery_null_rows_empty (d : Driver)
    (hc : d.connect = ConnectOutcome.ok)
    (he : d.exec = ExecOutcome.ok none) :
    runQuery d = (Except.ok ([] : List Row), 1) := by
  simp [runQuery, hc, he]

/-- Witness for C10 at a concrete driver. -/
theorem runQuery_null_rows_empty_witness :
    runQuery ⟨ConnectOutcome.ok, ExecOutcome.ok none⟩ =
      (Except.ok ([] : List Row), 1) :=
  runQuery_null_rows_empty ⟨ConnectOutcome.ok, ExecOutcome.ok none⟩ rfl rfl

/-- Claim C3: any SQL string containing a denylisted verb (UPDATE, DELETE,
INSERT, MERGE, DROP, ALTER, TRUNCATE) as a whole word, in any letter case,
is rejected by the `run_query` handler with the filter's error, and the
Query Execution Gateway `runQuery` is never invoked for it. -/
theorem run_query_rejects_forbidden (sql : String) (d : Driver)
    (h : hasForbiddenWord sql.toList) :
    run_query d sql = (Except.error "Only SELECT queries are allowed.", 0) := by
  have hf : forbidden sql = true := (forbidden_iff sql).mpr h
  simp [run_query, hf]

/-- Witness for C3 at `DELETE FROM t`. -/
theorem run_query_rejects_forbidden_witness :
    run_query ⟨ConnectOutcome.ok, ExecOutcome.ok (some [])⟩ "DELETE FROM t" =
      (Except.error "Only SELECT queries are allowed.", 0) :=
  run_query_rejects_forbidden "DELETE FROM t" _ ((forbidden_iff _).mp (by decide))

/-- Claim C4: any SQL string not containing a denylisted verb as a whole
word is classified as allowed by the filter, and execution proceeds to the
Query Execution Gateway (exactly one `runQuery` invocation). -/
theorem run_query_allows_clean (sql : String) (d : Driver)
    (h : ¬ hasForbiddenWord sql.toList) :
    forbidden sql = false ∧ (run_query d sql).2 = 1 := by
  have hf : forbidden sql = false := by
    cases h' : forbidden sql
    · rfl
    · exact absurd ((forbidden_iff sql).mp h') h
  refine ⟨hf, ?_⟩
  cases hr : (runQuery d).1 <;> simp [run_query, hf, hr]

/-- Witness for C4 at `SELECT 1`. -/
theorem run_query_allows_clean_witness :
    forbidden "SELECT 1" = false ∧
      (run_query ⟨ConnectOutcome.ok, ExecOutcome.ok (some [])⟩ "SELECT 1").2 = 1 :=
  run_query_allows_clean "SELECT 1" _
    (fun h => absurd ((forbidden_iff "SELECT 1").mpr h) (by decide))

/-- Claim C5 (counterexample): for the rejected request
`{method:"callTool", id:7, params:{name:"run_query",
arguments:{sql:"DELETE FROM t"}}}` the bridge does emit a code -32000
error envelope without contacting the gateway, but its message is
`Only SELECT queries are allowed.` — with a trailing period — and not
exactly `Only SELECT queries are allowed` as claimed. -/
theorem mcp_reject_message_counterexample :
    mcpPost ⟨ConnectOutcome.ok, ExecOutcome.ok (some [])⟩
        (some ⟨some "callTool", RpcId.num 7, some "run_query", some "DELETE FROM t"⟩) =
      ⟨Response.sse [⟨"message",
          errEnvelope (RpcId.num 7) (-32000) "Only SELECT queries are allowed."⟩] true, 1, 0⟩
    ∧ "Only SELECT queries are allowed." ≠ "Only SELECT queries are allowed" := by
  constructor
  · decide
  · decide

/-- Claim C5 (amended): every `callTool` request for `run_query` whose SQL
the safety filter rejects is answered with one error envelope carrying
code -32000 and the message `Only SELECT queries are allowed.` (trailing
period), the request id echoed, and the Query Execution Gateway is never
contacted. -/
theorem mcp_rejected_sql_envelope (d : Driver) (body : RpcBody) (sql : String)
    (hm : body.method = some "callTool") (ht : body.toolName = some "run_query")
    (hs : body.sqlArg = some sql) (hf : forbidden sql = true) :
    mcpPost d (some body) =
      ⟨Response.sse [⟨"message",
          errEnvelope body.id (-32000) "Only SELECT queries are allowed."⟩] true, 1, 0⟩ := by
  simp [mcpPost, hm, ht, hs, methodTruthy, registryGet, run_query, hf, msgOr]

/-- Witness for the amended C5 at a rejected `drop x` request. -/
theorem mcp_rejected_sql_envelope_witness :
    mcpPost ⟨ConnectOutcome.ok, ExecOutcome.fail "boom"⟩
        (some ⟨some "callTool", RpcId.str "r1", some "run_query", some "drop x"⟩) =
      ⟨Response.sse [⟨"message",
          errEnvelope (RpcId.str "r1") (-32000) "Only SELECT queries are allowed."⟩] true, 1, 0⟩ :=
  mcp_rejected_sql_envelope _ _ "drop x" rfl rfl rfl (by decide)

/-- Claim C6 (counterexample): a request whose method field is the empty
string — a method field that is not the recognized tool-invocation
method — is answered with the 400 `Invalid request` reply, not with a
-32601 `Method not found` envelope. -/
theorem mcp_empty_method_counterexample :
    (mcpPost ⟨ConnectOutcome.ok, ExecOutcome.ok (some [])⟩
        (some ⟨some "", RpcId.num 1, none, none⟩)).response =
      Response.badRequest "Invalid request"
    ∧ (mcpPost ⟨ConnectOutcome.ok, ExecOutcome.ok (some [])⟩
        (some ⟨some "", RpcId.num 1, none, none⟩)).response ≠
      Response.sse [⟨"message", errEnvelope (RpcId.num 1) (-32601) "Method not found"⟩] true := by
  constructor
  · decide
  · decide

/-- Claim C6 (amended): every request whose method field is present and
truthy but is not `callTool` is answered immediately with one envelope
carrying code -32601 and message `Method not found`, and no tool-registry
lookup is performed. -/
theorem mcp_unknown_method_envelope (d : Driver) (body : RpcBody)
    (hm : methodTruthy body.method = true) (hne : body.method ≠ some "callTool") :
    mcpPost d (some body) =
      ⟨Response.sse [⟨"message",
          errEnvelope body.id (-32601) "Method not found"⟩] true, 0, 0⟩ := by
  simp [mcpPost, hm, hne]

/-- Witness for the amended C6 at `method:"unknownMethod"`. -/
theorem mcp_unknown_method_envelope_witness :
    mcpPost ⟨ConnectOutcome.ok, ExecOutcome.ok (some [])⟩
        (some ⟨some "unknownMethod", RpcId.num 3, none, none⟩) =
      ⟨Response.sse [⟨"message",
          errEnvelope (RpcId.num 3) (-32601) "Method not found"⟩] true, 0, 0⟩ :=
  mcp_unknown_method_envelope _ _ (by decide) (by decide)

/-- Claim C7: every envelope the bridge emits — the success envelope and
every error envelope — carries the inbound request's id verbatim,
whatever that id is (number, string, null, or absent); and the
transport-failure fallback of src/unnamed/part_001 echoes the id
verbatim except that an absent id is written as null. -/
theorem mcp_id_echo :
    (∀ (d : Driver) (body : RpcBody) (f : Frame),
        f ∈ responseFrames (mcpPost d (some body)).response → f.data.id = body.id)
    ∧ (∀ (req : Option RpcBody) (b : RpcBody), req = some b →
        catchFallbackId req = b.id ∨
          (b.id = RpcId.absent ∧ catchFallbackId req = RpcId.null)) := by
  constructor
  · intro d body f hf
    by_cases h1 : methodTruthy body.method = false
    · simp [mcpPost, h1, responseFrames] at hf
    · by_cases h2 : body.method = some "callTool"
      · cases h3 : registryGet body.toolName with
        | none =>
          simp [mcpPost, h1, h2, h3, methodTruthy, responseFrames] at hf
          simp [hf, errEnvelope]
        | some u =>
          rcases h4 : run_query d (body.sqlArg.getD "undefined") with ⟨res, g⟩
          cases res with
          | ok r =>
            simp [mcpPost, h1, h2, h3, h4, methodTruthy, responseFrames] at hf
            simp [hf, okEnvelope]
          | error m =>
            simp [mcpPost, h1, h2, h3, h4, methodTruthy, responseFrames] at hf
            simp [hf, errEnvelope]
      · simp [mcpPost, h1, h2, responseFrames] at hf
        simp [hf, errEnvelope]
  · rintro req b rfl
    cases hb : b.id <;> simp [catchFallbackId, hb]

/-- Witness for C7: the error envelope of a concrete rejected request
carries the request's id. -/
theorem mcp_id_echo_witness :
    (⟨"message", errEnvelope (RpcId.num 7) (-32000)
        "Only SELECT queries are allowed."⟩ : Frame).data.id = RpcId.num 7 :=
  mcp_id_echo.1 ⟨ConnectOutcome.ok, ExecOutcome.ok (some [])⟩
    ⟨some "callTool", RpcId.num 7, some "run_query", some "DELETE FROM t"⟩
    ⟨"message", errEnvelope (RpcId.num 7) (-32000) "Only SELECT queries are allowed."⟩
    (by decide)

/-- Claim C9: whenever the bridge answers over the event stream — every
handled request — it emits exactly one `event: message` frame, then ends
the response; the emitted envelope is a well-formed JSON-RPC 2.0 envelope
populating exactly one of the result and error members, never both. -/
theorem mcp_single_frame (d : Driver) (req : Option RpcBody)
    (fr : List Frame) (ended : Bool) (l g : Nat)
    (h : mcpPost d req = ⟨Response.sse fr ended, l, g⟩) :
    fr.length = 1 ∧ ended = true ∧
      ∀ f ∈ fr, f.event = "message" ∧ f.data.jsonrpc = "2.0" ∧
        ((f.data.result.isSome = true ∧ f.data.error = none) ∨
          (f.data.result = none ∧ f.data.error.isSome = true)) := by
  cases req with
  | none => simp [mcpPost] at h
  | some body =>
    by_cases h1 : methodTruthy body.method = false
    · simp [mcpPost, h1] at h
    · by_cases h2 : body.method = some "callTool"
      · cases h3 : registryGet body.toolName with
        | none =>
          simp [mcpPost, h1, h2, h3, methodTruthy, BridgeOut.mk.injEq,
            Response.sse.injEq] at h
          obtain ⟨⟨hfr, hend⟩, -, -⟩ := h
          subst hfr
          subst hend
          refine ⟨rfl, rfl, ?_⟩
          intro f hf
          simp at hf
          subst hf
          simp [errEnvelope]
        | some u =>
          rcases h4 : run_query d (body.sqlArg.getD "undefined") with ⟨res, g0⟩
          cases res with
          | ok r =>
            simp [mcpPost, h1, h2, h3, h4, methodTruthy, BridgeOut.mk.injEq,
              Response.sse.injEq] at h
            obtain ⟨⟨hfr, hend⟩, -, -⟩ := h
            subst hfr
            subst hend
            refine ⟨rfl, rfl, ?_⟩
            intro f hf
            simp at hf
            subst hf
            simp [okEnvelope]
          | error m =>
            simp [mcpPost, h1, h2, h3, h4, methodTruthy, BridgeOut.mk.injEq,
              Response.sse.injEq] at h
            obtain ⟨⟨hfr, hend⟩, -, -⟩ := h
            subst hfr
            subst hend
            refine ⟨rfl, rfl, ?_⟩
            intro f hf
            simp at hf
            subst hf
            simp [errEnvelope]
      · simp [mcpPost, h1, h2, BridgeOut.mk.injEq, Response.sse.injEq] at h
        obtain ⟨⟨hfr, hend⟩, -, -⟩ := h
        subst hfr
        subst hend
        refine ⟨rfl, rfl, ?_⟩
        intro f hf
        simp at hf
        subst hf
        simp [errEnvelope]

/-- Witness for C9 at a concrete handled request. -/
theorem mcp_single_frame_witness :
    ([⟨"message", errEnvelope (RpcId.num 3) (-32601) "Method not found"⟩] : List Frame).length = 1
      ∧ true = true ∧
      ∀ f ∈ ([⟨"message", errEnvelope (RpcId.num 3) (-32601) "Method not found"⟩] : List Frame),
        f.event = "message" ∧ f.data.jsonrpc = "2.0" ∧
          ((f.data.result.isSome = true ∧ f.data.error = none) ∨
            (f.data.result = none ∧ f.data.error.isSome = true)) :=
  mcp_single_frame ⟨ConnectOutcome.ok, ExecOutcome.ok (some [])⟩
    (some ⟨some "unknownMethod", RpcId.num 3, none, none⟩)
    [⟨"message", errEnvelope (RpcId.num 3) (-32601) "Method not found"⟩] true 0 0 (by decide)

/-- The continuation does not start with a decimal digit (so a maximal
digit run ends exactly where the serializer stopped). -/
def notDigitStart (cs : List Char) : Prop :=
  ∀ c, cs.head? = some c → isDigitC c = false

theorem isDigitC_digitToChar (d : Nat) (h : d < 10) :
    isDigitC (digitToChar d) = true := by
  interval_cases d <;> decide

theorem digitVal_digitToChar (d : Nat) (h : d < 10) :
    digitVal (digitToChar d) = d := by
  interval_cases d <;> decide

theorem natCharsAux_digits (fuel : Nat) : ∀ (n : Nat),
    ∀ c ∈ natCharsAux fuel n, isDigitC c = true := by
  induction fuel with
  | zero => intro n c hc; simp [natCharsAux] at hc
  | succ fuel ih =>
    intro n c hc
    rw [natCharsAux] at hc
    by_cases h : n = 0
    · simp [h] at hc
    · rw [if_neg h] at hc
      rcases List.mem_append.mp hc with hc | hc
      · exact ih _ c hc
      · rw [List.mem_singleton] at hc
        subst hc
        exact isDigitC_digitToChar _ (Nat.mod_lt _ (by norm_num))

theorem natCharsAux_foldl (fuel : Nat) : ∀ (n a : Nat), n ≤ fuel →
    (natCharsAux fuel n).foldl (fun x c => x * 10 + digitVal c) a
      = a * 10 ^ (natCharsAux fuel n).length + n := by
  induction fuel with
  | zero =>
    intro n a h
    interval_cases n
    simp [natCharsAux]
  | succ fuel ih =>
    intro n a h
    by_cases h0 : n = 0
    · subst h0; simp [natCharsAux]
    · have hd : n / 10 < n := Nat.div_lt_self (Nat.pos_of_ne_zero h0) (by norm_num)
      rw [natCharsAux, if_neg h0, List.foldl_append,
        ih (n / 10) a (by omega)]
      simp only [List.foldl_cons, List.foldl_nil, List.length_append,
        List.length_cons, List.length_nil]
      rw [digitVal_digitToChar _ (Nat.mod_lt _ (by norm_num))]
      have hmod : n / 10 * 10 + n % 10 = n := by omega
      calc (a * 10 ^ (natCharsAux fuel (n / 10)).length + n / 10) * 10 + n % 10
          = a * (10 ^ (natCharsAux fuel (n / 10)).length * 10)
              + (n / 10 * 10 + n % 10) := by ring
        _ = a * 10 ^ ((natCharsAux fuel (n / 10)).length + (0 + 1)) + n := by
              rw [hmod, pow_succ]

theorem natChars_digits (n : Nat) : ∀ c ∈ natChars n, isDigitC c = true := by
  intro c hc
  rw [natChars] at hc
  by_cases h0 : n = 0
  · rw [if_pos h0, List.mem_singleton] at hc; subst hc; decide
  · rw [if_neg h0] at hc; exact natCharsAux_digits n n c hc

theorem natChars_ne_nil (n : Nat) : natChars n ≠ [] := by
  rw [natChars]
  by_cases h0 : n = 0
  · simp [h0]
  · cases n with
    | zero => exact absurd rfl h0
    | succ m =>
      rw [if_neg h0, natCharsAux, if_neg h0]
      simp

theorem natChars_foldl (n : Nat) :
    (natChars n).foldl (fun x c => x * 10 + digitVal c) 0 = n := by
  rw [natChars]
  by_cases h0 : n = 0
  · subst h0; rfl
  · rw [if_neg h0, natCharsAux_foldl n n 0 le_rfl]
    simp

theorem takeWhile_append_all (p : Char → Bool) (l1 l2 : List Char)
    (h : ∀ x ∈ l1, p x = true) :
    (l1 ++ l2).takeWhile p = l1 ++ l2.takeWhile p := by
  induction l1 with
  | nil => simp
  | cons c cs ih =>
    rw [List.cons_append, List.takeWhile_cons_of_pos (h c (by simp)),
      ih (fun x hx => h x (by simp [hx]))]
    rfl

theorem dropWhile_append_all (p : Char → Bool) (l1 l2 : List Char)
    (h : ∀ x ∈ l1, p x = true) :
    (l1 ++ l2).dropWhile p = l2.dropWhile p := by
  induction l1 with
  | nil => simp
  | cons c cs ih =>
    rw [List.cons_append, List.dropWhile_cons_of_pos (h c (by simp))]
    exact ih (fun x hx => h x (by simp [hx]))

theorem takeWhile_nil_of_notDigit (rest : List Char) (h : notDigitStart rest) :
    rest.takeWhile isDigitC = [] := by
  cases rest with
  | nil => rfl
  | cons c cs =>
    rw [List.takeWhile_cons_of_neg]
    simp [h c rfl]

theorem dropWhile_id_of_notDigit (rest : List Char) (h : notDigitStart rest) :
    rest.dropWhile isDigitC = rest := by
  cases rest with
  | nil => rfl
  | cons c cs =>
    rw [List.dropWhile_cons_of_neg]
    simp [h c rfl]

theorem parseNat_natChars (n : Nat) (rest : List Char) (h : notDigitStart rest) :
    parseNat (natChars n ++ rest) = some (n, rest) := by
  have htake : (natChars n ++ rest).takeWhile isDigitC = natChars n := by
    rw [takeWhile_append_all _ _ _ (natChars_digits n),
      takeWhile_nil_of_notDigit rest h, List.append_nil]
  have hdrop : (natChars n ++ rest).dropWhile isDigitC = rest := by
    rw [dropWhile_append_all _ _ _ (natChars_digits n),
      dropWhile_id_of_notDigit rest h]
  rw [parseNat, htake, hdrop, if_neg (natChars_ne_nil n), natChars_foldl]

theorem hexVal_hexDigitChar (d : Nat) (h : d < 16) :
    hexVal (hexDigitChar d) = some d := by
  interval_cases d <;> decide

theorem psb_close (rest : List Char) :
    parseStringBody ('"' :: rest) = some ([], rest) := by
  rw [parseStringBody.eq_def]
  rfl

theorem psb_esc_quote (rest : List Char) :
    parseStringBody ('\\' :: '"' :: rest)
      = (parseStringBody rest).map (fun p => ('"' :: p.1, p.2)) := by
  rw [parseStringBody.eq_def]
  rfl

theorem psb_esc_back (rest : List Char) :
    parseStringBody ('\\' :: '\\' :: rest)
      = (parseStringBody rest).map (fun p => ('\\' :: p.1, p.2)) := by
  rw [parseStringBody.eq_def]
  rfl

theorem psb_esc_b (rest : List Char) :
    parseStringBody ('\\' :: 'b' :: rest)
      = (parseStringBody rest).map (fun p => (Char.ofNat 8 :: p.1, p.2)) := by
  rw [parseStringBody.eq_def]
  rfl

theorem psb_esc_t (rest : List Char) :
    parseStringBody ('\\' :: 't' :: rest)
      = (parseStringBody rest).map (fun p => (Char.ofNat 9 :: p.1, p.2)) := by
  rw [parseStringBody.eq_def]
  rfl

theorem psb_esc_n (rest : List Char) :
    parseStringBody ('\\' :: 'n' :: rest)
      = (parseStringBody rest).map (fun p => (Char.ofNat 10 :: p.1, p.2)) := by
  rw [parseStringBody.eq_def]
  rfl

theorem psb_esc_f (rest : List Char) :
    parseStringBody ('\\' :: 'f' :: rest)
      = (parseStringBody rest).map (fun p => (Char.ofNat 12 :: p.1, p.2)) := by
  rw [parseStringBody.eq_def]
  rfl

theorem psb_esc_r (rest : List Char) :
    parseStringBody ('\\' :: 'r' :: rest)
      = (parseStringBody rest).map (fun p => (Char.ofNat 13 :: p.1, p.2)) := by
  rw [parseStringBody.eq_def]
  rfl

theorem psb_esc_u (h1 h2 h3 h4 : Char) (rest : List Char) :
    parseStringBody ('\\' :: 'u' :: h1 :: h2 :: h3 :: h4 :: rest)
      = match hexVal h1, hexVal h2, hexVal h3, hexVal h4 with
        | some a, some b, some x, some y =>
          if ((a * 16 + b) * 16 + x) * 16 + y < 55296 then
            (parseStringBody rest).map
              (fun p => (Char.ofNat (((a * 16 + b) * 16 + x) * 16 + y) :: p.1, p.2))
          else none
        | _, _, _, _ => none := by
  rw [parseStringBody.eq_def]
  rfl

theorem psb_lit (c : Char) (rest : List Char) (n1 : ¬ c = '"') (n2 : ¬ c = '\\')
    (n3 : ¬ c.toNat < 32) :
    parseStringBody (c :: rest)
      = (parseStringBody rest).map (fun p => (c :: p.1, p.2)) := by
  rw [parseStringBody.eq_def]
  show (if c = '"' then _ else if c = '\\' then _ else if c.toNat < 32 then _ else _) = _
  rw [if_neg n1, if_neg n2, if_neg n3]

theorem parseStringBody_escape (l : List Char) : ∀ rest : List Char,
    parseStringBody (escapeChars l ++ '"' :: rest) = some (l, rest) := by
  induction l with
  | nil =>
    intro rest
    rw [escapeChars, List.nil_append, psb_close]
  | cons c cs ih =>
    intro rest
    rw [escapeChars, List.append_assoc]
    by_cases h1 : c = '"'
    · subst h1
      rw [escapeChar, if_pos rfl]
      show parseStringBody ('\\' :: '"' :: (escapeChars cs ++ '"' :: rest)) = _
      rw [psb_esc_quote, ih, Option.map_some']
    · by_cases h2 : c = '\\'
      · subst h2
        rw [escapeChar, if_neg h1, if_pos rfl]
        show parseStringBody ('\\' :: '\\' :: (escapeChars cs ++ '"' :: rest)) = _
        rw [psb_esc_back, ih, Option.map_some']
      · by_cases h3 : c.toNat = 8
        · have hc : Char.ofNat 8 = c := by rw [← h3, Char.ofNat_toNat]
          rw [escapeChar, if_neg h1, if_neg h2, if_pos h3]
          show parseStringBody ('\\' :: 'b' :: (escapeChars cs ++ '"' :: rest)) = _
          rw [psb_esc_b, ih, Option.map_some', hc]
        · by_cases h4 : c.toNat = 9
          · have hc : Char.ofNat 9 = c := by rw [← h4, Char.ofNat_toNat]
            rw [escapeChar, if_neg h1, if_neg h2, if_neg h3, if_pos h4]
            show parseStringBody ('\\' :: 't' :: (escapeChars cs ++ '"' :: rest)) = _
            rw [psb_esc_t, ih, Option.map_some', hc]
          · by_cases h5 : c.toNat = 10
            · have hc : Char.ofNat 10 = c := by rw [← h5, Char.ofNat_toNat]
              rw [escapeChar, if_neg h1, if_neg h2, if_neg h3, if_neg h4, if_pos h5]
              show parseStringBody ('\\' :: 'n' :: (escapeChars cs ++ '"' :: rest)) = _
              rw [psb_esc_n, ih, Option.map_some', hc]
            · by_cases h6 : c.toNat = 12
              · have hc : Char.ofNat 12 = c := by rw [← h6, Char.ofNat_toNat]
                rw [escapeChar, if_neg h1, if_neg h2, if_neg h3, if_neg h4, if_neg h5,
                  if_pos h6]
                show parseStringBody ('\\' :: 'f' :: (escapeChars cs ++ '"' :: rest)) = _
                rw [psb_esc_f, ih, Option.map_some', hc]
              · by_cases h7 : c.toNat = 13
                · have hc : Char.ofNat 13 = c := by rw [← h7, Char.ofNat_toNat]
                  rw [escapeChar, if_neg h1, if_neg h2, if_neg h3, if_neg h4, if_neg h5,
                    if_neg h6, if_pos h7]
                  show parseStringBody ('\\' :: 'r' :: (escapeChars cs ++ '"' :: rest)) = _
                  rw [psb_esc_r, ih, Option.map_some', hc]
                · by_cases h8 : c.toNat < 32
                  · have hhi : c.toNat / 16 < 16 := by omega
                    have hlo : c.toNat % 16 < 16 := by omega
                    rw [escapeChar, if_neg h1, if_neg h2, if_neg h3, if_neg h4, if_neg h5,
                      if_neg h6, if_neg h7, if_pos h8]
                    show parseStringBody ('\\' :: 'u' :: '0' :: '0'
                      :: hexDigitChar (c.toNat / 16) :: hexDigitChar (c.toNat % 16)
                      :: (escapeChars cs ++ '"' :: rest)) = _
                    rw [psb_esc_u, show hexVal '0' = some 0 from by decide,
                      hexVal_hexDigitChar _ hhi, hexVal_hexDigitChar _ hlo]
                    show (if ((0 * 16 + 0) * 16 + c.toNat / 16) * 16 + c.toNat % 16 < 55296
                      then (parseStringBody (escapeChars cs ++ '"' :: rest)).map
                        (fun p => (Char.ofNat (((0 * 16 + 0) * 16 + c.toNat / 16) * 16
                          + c.toNat % 16) :: p.1, p.2))
                      else none) = _
                    have harith : ((0 * 16 + 0) * 16 + c.toNat / 16) * 16 + c.toNat % 16
                        = c.toNat := by omega
                    rw [harith, if_pos (show c.toNat < 55296 by omega), ih,
                      Option.map_some', Char.ofNat_toNat]
                  · rw [escapeChar, if_neg h1, if_neg h2, if_neg h3, if_neg h4, if_neg h5,
                      if_neg h6, if_neg h7, if_neg h8]
                    show parseStringBody (c :: (escapeChars cs ++ '"' :: rest)) = _
                    rw [psb_lit c _ h1 h2 h8, ih, Option.map_some']

theorem isDigitC_ne (c : Char) (h : isDigitC c = true) :
    c ≠ 'n' ∧ c ≠ 't' ∧ c ≠ 'f' ∧ c ≠ '"' ∧ c ≠ '-' := by
  refine ⟨?_, ?_, ?_, ?_, ?_⟩ <;> rintro rfl <;> exact absurd h (by decide)

theorem take4_cons_ne (a : Char) (l : List Char) (b : Char) (tgt : List Char)
    (hne : a ≠ b) : ¬ ((a :: l).take 4 = b :: tgt) := by
  intro h
  have h' : a :: l.take 3 = b :: tgt := h
  injection h' with h1 _
  exact hne h1

theorem take5_cons_ne (a : Char) (l : List Char) (b : Char) (tgt : List Char)
    (hne : a ≠ b) : ¬ ((a :: l).take 5 = b :: tgt) := by
  intro h
  have h' : a :: l.take 4 = b :: tgt := h
  injection h' with h1 _
  exact hne h1

theorem head_cons_ne (a b : Char) (l : List Char) (h : a ≠ b) :
    ¬ ((a :: l).head? = some b) := by
  simp only [List.head?_cons, Option.some.injEq]
  exact h

theorem natChars_cons (k : Nat) : ∃ d ds, natChars k = d :: ds ∧ isDigitC d = true := by
  cases h : natChars k with
  | nil => exact absurd h (natChars_ne_nil k)
  | cons d ds =>
    refine ⟨d, ds, rfl, natChars_digits k d ?_⟩
    rw [h]
    exact List.mem_cons_self d ds

theorem parseJValue_rt (v : JValue) (rest : List Char) (h : notDigitStart rest) :
    parseJValue (jvalueChars v ++ rest) = some (v, rest) := by
  cases v with
  | null => rfl
  | bool b => cases b <;> rfl
  | str s =>
    have hsh : jvalueChars (JValue.str s) ++ rest
        = '"' :: (escapeChars s.toList ++ '"' :: rest) := by
      simp [jvalueChars]
    rw [hsh, parseJValue,
      if_neg (take4_cons_ne _ _ _ _ (by decide)),
      if_neg (take4_cons_ne _ _ _ _ (by decide)),
      if_neg (take5_cons_ne _ _ _ _ (by decide)),
      if_pos (List.head?_cons : ('"' :: (escapeChars s.toList ++ '"' :: rest)).head? = _)]
    show (parseStringBody (escapeChars s.toList ++ '"' :: rest)).map _ = _
    rw [parseStringBody_escape, Option.map_some']
    rfl
  | int m =>
    by_cases hm : m < 0
    · obtain ⟨d, ds, hnds, hdig⟩ := natChars_cons m.natAbs
      have hsh : jvalueChars (JValue.int m) ++ rest
          = '-' :: (natChars m.natAbs ++ rest) := by
        rw [jvalueChars, if_pos hm, List.cons_append]
      rw [hsh, parseJValue,
        if_neg (take4_cons_ne _ _ _ _ (by decide)),
        if_neg (take4_cons_ne _ _ _ _ (by decide)),
        if_neg (take5_cons_ne _ _ _ _ (by decide)),
        if_neg (head_cons_ne _ _ _ (by decide)),
        if_pos (List.head?_cons : ('-' :: (natChars m.natAbs ++ rest)).head? = _)]
    
      show (parseNat (natChars m.natAbs ++ rest)).map _ = _
      rw [parseNat_natChars _ _ h, Option.map_some']
      have hval : -((m.natAbs : Int)) = m := by omega
      rw [hval]
    · obtain ⟨d, ds, hnds, hdig⟩ := natChars_cons m.natAbs
      obtain ⟨hn1, hn2, hn3, hn4, hn5⟩ := isDigitC_ne d hdig
      have hsh : jvalueChars (JValue.int m) ++ rest
          = d :: (ds ++ rest) := by
        rw [jvalueChars, if_neg hm, hnds, List.cons_append]
      have hback : d :: (ds ++ rest) = natChars m.natAbs ++ rest := by
        rw [hnds, List.cons_append]
      rw [hsh, parseJValue,
        if_neg (take4_cons_ne _ _ _ _ hn1),
        if_neg (take4_cons_ne _ _ _ _ hn2),
        if_neg (take5_cons_ne _ _ _ _ hn3),
        if_neg (head_cons_ne _ _ _ hn4),
        if_neg (head_cons_ne _ _ _ hn5),
        hback, parseNat_natChars _ _ h, Option.map_some']
      have hval : ((m.natAbs : Int)) = m := by omega
      rw [hval]

theorem notDigitStart_cons (c : Char) (h : isDigitC c = false) (l : List Char) :
    notDigitStart (c :: l) := by
  intro c' hc'
  rw [List.head?_cons, Option.some.injEq] at hc'
  rw [← hc']
  exact h

theorem parseField_cons_eq (rest0 : List Char) :
    parseField ('"' :: rest0) =
      match parseStringBody rest0 with
      | none => none
      | some (kk, rest1) =>
        match rest1 with
        | ':' :: rest2 =>
          match parseJValue rest2 with
          | none => none
          | some (vv, rest3) => some ((⟨kk⟩, vv), rest3)
        | _ => none := by
  rw [parseField.eq_def]
  rfl

theorem parseField_rt (k : String) (v : JValue) (rest : List Char)
    (h : notDigitStart rest) :
    parseField (fieldChars (k, v) ++ rest) = some ((k, v), rest) := by
  have hsh : fieldChars (k, v) ++ rest
      = '"' :: (escapeChars k.toList ++ '"' :: (':' :: (jvalueChars v ++ rest))) := by
    simp [fieldChars]
  rw [hsh, parseField_cons_eq, parseStringBody_escape]
  show (match parseJValue (jvalueChars v ++ rest) with
    | none => none
    | some (vv, rest3) => some (((⟨k.toList⟩ : String), vv), rest3)) = _
  rw [parseJValue_rt v rest h]
  rfl

theorem fieldChars_length (f : String × JValue) : 1 ≤ (fieldChars f).length := by
  rw [fieldChars]
  simp

theorem fieldsChars_length (r : Row) : r.length ≤ (fieldsChars r).length := by
  induction r with
  | nil => simp [fieldsChars]
  | cons f fs ih =>
    cases fs with
    | nil =>
      have := fieldChars_length f
      simpa [fieldsChars] using this
    | cons g gs =>
      rw [fieldsChars, List.length_append, List.length_cons, List.length_cons]
      have h1 := fieldChars_length f
      have h2 := ih
      rw [List.length_cons] at h2 ⊢
      omega

theorem fieldsChars_head (f : String × JValue) (fs : List (String × JValue)) :
    ∃ t, fieldsChars (f :: fs) = '"' :: t := by
  cases fs with
  | nil => exact ⟨_, rfl⟩
  | cons g gs => exact ⟨_, rfl⟩

theorem parseFieldsAux_rt (r : Row) : ∀ (fuel : Nat) (rest : List Char),
    r ≠ [] → r.length ≤ fuel →
    parseFieldsAux fuel (fieldsChars r ++ '}' :: rest) = some (r, rest) := by
  induction r with
  | nil => intro fuel rest hne _; exact absurd rfl hne
  | cons f fs ih =>
    intro fuel rest _ hlen
    cases fuel with
    | zero => simp at hlen
    | succ fuel =>
      rcases f with ⟨k, v⟩
      cases fs with
      | nil =>
        show parseFieldsAux (fuel + 1) (fieldChars (k, v) ++ '}' :: rest)
          = some ([(k, v)], rest)
        rw [parseFieldsAux,
          parseField_rt k v _ (notDigitStart_cons '}' (by decide) rest)]
        rfl
      | cons g gs =>
        have hassoc : fieldsChars ((k, v) :: g :: gs) ++ '}' :: rest
            = fieldChars (k, v)
                ++ (',' :: (fieldsChars (g :: gs) ++ '}' :: rest)) := by
          rw [fieldsChars, List.append_assoc, List.cons_append]
        rw [hassoc, parseFieldsAux,
          parseField_rt k v _ (notDigitStart_cons ',' (by decide) _)]
        show (match parseFieldsAux fuel (fieldsChars (g :: gs) ++ '}' :: rest) with
          | none => none
          | some (fs2, rest2) => some ((k, v) :: fs2, rest2)) = _
        rw [ih fuel rest (by simp) (by
          simp only [List.length_cons] at hlen ⊢
          omega)]

theorem parseRow_rt (r : Row) (rest : List Char) :
    parseRow (rowChars r ++ rest) = some (r, rest) := by
  cases r with
  | nil =>
    show parseRow ('{' :: '}' :: rest) = some ([], rest)
    have hc : ('{' :: '}' :: rest).take 2 = ['{', '}'] := rfl
    rw [parseRow, if_pos hc]
    rfl
  | cons f fs =>
    obtain ⟨t, ht⟩ := fieldsChars_head f fs
    have hsh : rowChars (f :: fs) ++ rest
        = '{' :: (fieldsChars (f :: fs) ++ '}' :: rest) := by
      rw [rowChars, List.cons_append, List.append_assoc, List.singleton_append]
    have hc1 : ¬ (('{' :: (fieldsChars (f :: fs) ++ '}' :: rest)).take 2
        = ['{', '}']) := by
      rw [ht, List.cons_append]
      exact (by decide : ¬ ((['{', '"'] : List Char) = ['{', '}']))
    have hc2 : ('{' :: (fieldsChars (f :: fs) ++ '}' :: rest)).head? = some '{' :=
      List.head?_cons
    rw [hsh, parseRow, if_neg hc1, if_pos hc2, List.tail_cons]
    refine parseFieldsAux_rt (f :: fs) _ rest (by simp) ?_
    rw [List.length_append]
    have := fieldsChars_length (f :: fs)
    omega

theorem rowChars_length (r : Row) : 1 ≤ (rowChars r).length := by
  rw [rowChars]
  simp

theorem rowsChars_length (rs : List Row) : rs.length ≤ (rowsChars rs).length := by
  induction rs with
  | nil => simp [rowsChars]
  | cons r rs' ih =>
    cases rs' with
    | nil =>
      have := rowChars_length r
      simpa [rowsChars] using this
    | cons r2 rs2 =>
      rw [rowsChars, List.length_append, List.length_cons, List.length_cons]
      have h1 := rowChars_length r
      have h2 := ih
      rw [List.length_cons] at h2 ⊢
      omega

theorem rowsChars_head (r : Row) (rs : List Row) :
    ∃ t, rowsChars (r :: rs) = '{' :: t := by
  cases r with
  | nil =>
    cases rs with
    | nil => exact ⟨_, rfl⟩
    | cons r2 rs2 => exact ⟨_, rfl⟩
  | cons f fs =>
    cases rs with
    | nil => exact ⟨_, rfl⟩
    | cons r2 rs2 => exact ⟨_, rfl⟩

theorem parseRowsAux_rt (rs : List Row) : ∀ (fuel : Nat) (rest : List Char),
    rs ≠ [] → rs.length ≤ fuel →
    parseRowsAux fuel (rowsChars rs ++ ']' :: rest) = some (rs, rest) := by
  induction rs with
  | nil => intro fuel rest hne _; exact absurd rfl hne
  | cons r rs' ih =>
    intro fuel rest _ hlen
    cases fuel with
    | zero => simp at hlen
    | succ fuel =>
      cases rs' with
      | nil =>
        show parseRowsAux (fuel + 1) (rowChars r ++ ']' :: rest) = some ([r], rest)
        rw [parseRowsAux, parseRow_rt r (']' :: rest)]
        rfl
      | cons r2 rs2 =>
        have hassoc : rowsChars (r :: r2 :: rs2) ++ ']' :: rest
            = rowChars r ++ (',' :: (rowsChars (r2 :: rs2) ++ ']' :: rest)) := by
          rw [rowsChars, List.append_assoc, List.cons_append]
        rw [hassoc, parseRowsAux, parseRow_rt r _]
        show (match parseRowsAux fuel (rowsChars (r2 :: rs2) ++ ']' :: rest) with
          | none => none
          | some (rs3, rest2) => some (r :: rs3, rest2)) = _
        rw [ih fuel rest (by simp) (by
          simp only [List.length_cons] at hlen ⊢
          omega)]

/-- JSON round trip for row sequences: deserializing the serialized form
of any row sequence recovers it exactly, rows in order and the fields of
each row in order. -/
theorem parseRows_stringifyRows (rs : List Row) :
    parseRows (stringifyRows rs) = some rs := by
  cases rs with
  | nil => rfl
  | cons r rs' =>
    obtain ⟨t, ht⟩ := rowsChars_head r rs'
    have hlist : (stringifyRows (r :: rs')).toList
        = '[' :: (rowsChars (r :: rs') ++ ']' :: []) := rfl
    rw [parseRows, hlist]
    have hc1 : ¬ (('[' :: (rowsChars (r :: rs') ++ ']' :: [])).take 2
        = ['[', ']']) := by
      rw [ht, List.cons_append]
      exact (by decide : ¬ ((['[', '{'] : List Char) = ['[', ']']))
    rw [if_neg hc1]
    have hc2 : ('[' :: (rowsChars (r :: rs') ++ ']' :: [])).head? = some '[' :=
      List.head?_cons
    rw [if_pos hc2, List.tail_cons]
    rw [parseRowsAux_rt (r :: rs') _ [] (by simp) (by
      rw [List.length_append]
      have := rowsChars_length (r :: rs')
      omega)]

/-- Claim C8: a successful query returning row sequence `R` produces a
ToolResult with a single text content block whose text is the JSON
serialization of `R`, and deserializing that text recovers `R` exactly —
row order and the field order within each row preserved. -/
theorem run_query_roundtrip (d : Driver) (sql : String) (R : List Row)
    (hf : forbidden sql = false) (hc : d.connect = ConnectOutcome.ok)
    (he : d.exec = ExecOutcome.ok (some R)) :
    run_query d sql
      = (Except.ok { content := [{ type := "text", text := stringifyRows R }] }, 1)
    ∧ parseRows (stringifyRows R) = some R := by
  constructor
  · have hr : (runQuery d).1 = Except.ok R := by simp [runQuery, hc, he]
    simp [run_query, hf, hr]
  · exact parseRows_stringifyRows R

/-- Witness for C8 at the spec's `SELECT 1` scenario. -/
theorem run_query_roundtrip_witness :
    run_query ⟨ConnectOutcome.ok, ExecOutcome.ok (some [[("1", JValue.int 1)]])⟩ "SELECT 1"
      = (Except.ok { content := [⟨"text", stringifyRows [[("1", JValue.int 1)]]⟩] }, 1)
    ∧ parseRows (stringifyRows [[("1", JValue.int 1)]]) = some [[("1", JValue.int 1)]] :=
  run_query_roundtrip _ "SELECT 1" _ (by decide) rfl rfl
